import Mathlib

/-!
Verification of the supervisory protocol engine of the iot-irrigation-system
repository (STM32 + CC1101 + A9G field telemetry gateway).

The Lean definitions below are a shallow embedding of the C++ sources under
src/field-design/platform-io/.  Strings are modelled as `List Char`, the
Arduino `String` operations (indexOf, substring, replace, trim, toFloat) are
modelled by executable Lean functions with the exact Arduino-core semantics
(substring swaps out-of-order bounds and clamps to the length; toFloat is C
atof, i.e. the numeric value of the longest numeric prefix, 0 when there is
none).  Numeric sensor values are modelled as exact rationals `ℚ`; atof's
hexadecimal / infinity / NaN spellings, which cannot occur in this protocol,
are not modelled.  Unsigned 32-bit millisecond arithmetic is modelled by
`u32sub` (subtraction modulo 2^32).
-/

namespace Irrigation

/-- `isdigit` on code points, as used by `parseFloat` in
stm32_cc1101_receiver_a9g_sms/src/main.cpp line 238. -/
def isDigitChar (c : Char) : Bool := 48 ≤ c.toNat && c.toNat ≤ 57

/-- The character class `[0-9.-]` tested by `parseFloat`
(stm32_cc1101_receiver_a9g_sms/src/main.cpp line 238):
digits, '.' (code 46) and '-' (code 45). -/
def isNumChar (c : Char) : Bool := isDigitChar c || c.toNat == 46 || c.toNat == 45

/-- C `isspace`: ' ' (32) and the control characters 9..13. -/
def isSpaceChar (c : Char) : Bool := c.toNat == 32 || (9 ≤ c.toNat && c.toNat ≤ 13)

/-- Does the second list start with the first? (helper for `idxOfSub`). -/
def startsWithL : List Char → List Char → Bool
  | [], _ => true
  | _ :: _, [] => false
  | p :: ps, c :: cs => p == c && startsWithL ps cs

/-- Arduino `String::indexOf(substring)`: index of the first occurrence,
`none` for the C++ return value -1. -/
def idxOfSub (pat : List Char) : List Char → Option Nat
  | [] => if pat.isEmpty then some 0 else none
  | c :: rest => if startsWithL pat (c :: rest) then some 0 else (idxOfSub pat rest).map (· + 1)

/-- `indexOf(pat) != -1`. -/
def hasSub (pat s : List Char) : Bool := (idxOfSub pat s).isSome

/-- Arduino `String::substring(left, right)`: swaps the bounds when
`left > right`, clamps `right` to the length, yields the character range
`[left, right)`. -/
def aSubstring (s : List Char) (left right : Nat) : List Char :=
  (s.take (max left right)).drop (min left right)

/-- Arduino `String::trim()`: strips `isspace` characters from both ends. -/
def trimL (s : List Char) : List Char :=
  ((s.dropWhile isSpaceChar).reverse.dropWhile isSpaceChar).reverse

/-- `String::replace("\r", "")` — removes every carriage return (code 13). -/
def stripCR (s : List Char) : List Char := s.filter (fun c => c.toNat != 13)

/-- Unsigned 32-bit subtraction `a - b` as performed on `millis()` values. -/
def u32sub (a b : Nat) : Nat := (a % 4294967296 + 4294967296 - b % 4294967296) % 4294967296

/-- C `strtod` sign parsing: consumes one leading '-' (45) or '+' (43). -/
def parseSign : List Char → Bool × List Char
  | [] => (false, [])
  | c :: rest =>
    if c.toNat == 45 then (true, rest)
    else if c.toNat == 43 then (false, rest)
    else (false, c :: rest)

/-- C `strtod` digit-run parsing: consumes the maximal run of digits,
returning (value, number of digits consumed, remainder). -/
def parseDigitsAux : Nat → Nat → List Char → Nat × Nat × List Char
  | acc, cnt, [] => (acc, cnt, [])
  | acc, cnt, c :: cs =>
    if isDigitChar c then parseDigitsAux (10 * acc + (c.toNat - 48)) (cnt + 1) cs
    else (acc, cnt, c :: cs)

/-- C `strtod` exponent part: an 'e'/'E' followed by an optional sign and at
least one digit scales the mantissa; otherwise the mantissa is returned. -/
def applyExp (m : ℚ) : List Char → ℚ
  | [] => m
  | c :: rest =>
    if c.toNat == 101 || c.toNat == 69 then
      let sr := parseSign rest
      let dr := parseDigitsAux 0 0 sr.2
      if dr.2.1 == 0 then m
      else if sr.1 then m / 10 ^ dr.1 else m * 10 ^ dr.1
    else m

/-- C `atof` (= Arduino `String::toFloat`) on its decimal forms: skip
whitespace, optional sign, integer digits, optional '.' and fraction digits,
optional exponent; 0 when no digit was consumed. -/
def atofQ (s : List Char) : ℚ :=
  let s1 := s.dropWhile isSpaceChar
  let sg := parseSign s1
  let ipr := parseDigitsAux 0 0 sg.2
  let fpr := match ipr.2.2 with
    | c :: r => if c.toNat == 46 then parseDigitsAux 0 0 r else (0, 0, ipr.2.2)
    | [] => (0, 0, ipr.2.2)
  if ipr.2.1 == 0 && fpr.2.1 == 0 then 0
  else
    let mant : ℚ := (ipr.1 : ℚ) + (fpr.1 : ℚ) / 10 ^ fpr.2.1
    applyExp (if sg.1 then -mant else mant) fpr.2.2

/-- `parseFloat` (stm32_cc1101_receiver_a9g_sms/src/main.cpp lines 234-244):
sentinel 9999.0 for the empty string; if any character of the string is in
`[0-9.-]` the result is `str.toFloat()` (i.e. atof of the whole string);
otherwise the sentinel. -/
def parseFloat (s : List Char) : ℚ :=
  if s.isEmpty then 9999
  else if s.any isNumChar then atofQ s
  else 9999

/-- `struct SensorData` (stm32_cc1101_receiver_a9g_sms/src/main.cpp
lines 50-54), fields modelled as exact rationals. -/
@[ext]
structure SensorData where
  temperature : ℚ
  humidity : ℚ
  pressure : ℚ
deriving DecidableEq

/-- The all-sentinel reading `{9999.0, 9999.0, 9999.0}`. -/
def allSentinel : SensorData := ⟨9999, 9999, 9999⟩

def tLabel : List Char := ['T', ':']

def hLabel : List Char := ['H', ':']

def pLabel : List Char := ['P', ':']

/-- Lenient frame decode `parseSensorData`
(stm32_cc1101_receiver_a9g_sms/src/main.cpp lines 246-274).  The C++
function receives the output struct by reference and assigns the sentinel
values at entry, so the returned `SensorData` is what the caller's struct
holds afterwards in every case. -/
def parseSensorData (dataString : List Char) : Bool × SensorData :=
  match idxOfSub tLabel dataString, idxOfSub hLabel dataString, idxOfSub pLabel dataString with
  | some ti, some hi, some pj =>
    let temp := stripCR (aSubstring dataString (ti + 2) hi)
    let hum := stripCR (aSubstring dataString (hi + 2) pj)
    let pres := stripCR (aSubstring dataString (pj + 2) dataString.length)
    let d : SensorData := ⟨parseFloat temp, parseFloat hum, parseFloat pres⟩
    (decide (d.temperature ≠ 9999 ∨ d.humidity ≠ 9999 ∨ d.pressure ≠ 9999), d)
  | _, _, _ => (false, allSentinel)

/-- Decimal digit `d` as a character, code point `48 + d` (the digits
emitted by `snprintf`). -/
def digitChar (d : Nat) : Char := Char.ofNat (48 + d)

/-- Decimal print of a natural number, fuel-driven (the fuel `n + 1` always
suffices, see `natStrAux_spec`). -/
def natStrAux : Nat → Nat → List Char
  | 0, _ => []
  | fuel + 1, n => if n < 10 then [digitChar n] else natStrAux fuel (n / 10) ++ [digitChar (n % 10)]

/-- Decimal print of a natural number, as `snprintf %f` prints the integer
part. -/
def natStr (n : Nat) : List Char := natStrAux (n + 1) n

/-- `|q|` rounded to hundredths, as the integer `round(100*|q|)` (the
rounding `%.2f` performs on the magnitude). -/
def qRound2 (q : ℚ) : Nat := (round (100 * |q|)).toNat

/-- `snprintf "%.2f"` of a value: optional '-', decimal integer part, '.',
two fraction digits. -/
def fmt2 (q : ℚ) : List Char :=
  (if q < 0 then ['-'] else []) ++ natStr (qRound2 q / 100) ++
    ['.', digitChar (qRound2 q % 100 / 10), digitChar (qRound2 q % 100 % 10)]

/-- The rational value actually denoted by `fmt2 q`: the two-decimal
rounding of `q`. -/
def mRound2 (q : ℚ) : ℚ := (if q < 0 then -1 else 1) * (qRound2 q : ℚ) / 100

/-- The frame shape `T:<A>,H:<B>,P:<C>` produced by the transmitter and by
`formatSensorData`. -/
def mkFrame (A B C : List Char) : List Char :=
  tLabel ++ A ++ [','] ++ hLabel ++ B ++ [','] ++ pLabel ++ C

/-- The full text `snprintf(buffer, 50, "T:%.2f,H:%.2f,P:%.2f", ...)` would
produce with an unbounded buffer
(stm32_cc1101_receiver_a9g_sms/src/main.cpp lines 276-281). -/
def formatSensorDataFull (d : SensorData) : List Char :=
  mkFrame (fmt2 d.temperature) (fmt2 d.humidity) (fmt2 d.pressure)

/-- `formatSensorData` (stm32_cc1101_receiver_a9g_sms/src/main.cpp lines
276-281): `snprintf` with `char buffer[50]` truncates the text to 49
characters. -/
def formatSensorData (d : SensorData) : List Char := (formatSensorDataFull d).take 49

/-- The `"+CGPSINFO:"` marker searched by `getGPSLocation`. -/
def gpsMarker : List Char := "+CGPSINFO:".toList

/-- The `",,,,,,,,"` empty-fix pattern tested by `getGPSLocation`. -/
def noFixPattern : List Char := ",,,,,,,,".toList

/-- The trimmed fix field `getGPSLocation` extracts once the marker was
found at `start`: the text from `start + 10` up to the next `'\r'` (or the
end of the response when `indexOf` returns -1, which `substring` clamps to
the length), trimmed. -/
def gpsFixField (response : List Char) (start : Nat) : List Char :=
  let endIdx := match idxOfSub [Char.ofNat 13] (response.drop start) with
    | some j => start + j
    | none => response.length
  trimL (aSubstring response (start + 10) endIdx)

/-- `getGPSLocation` of the two receiver/relay variants
(stm32_cc1101_receiver_a9g_sms/src/main.cpp lines 168-180 and
stm32_cc1101_receiver_a9g_mqtt/src/main.cpp lines 209-221): sentinel
`"L:9999.0"`. -/
def getGPSLocationRecv (response : List Char) : List Char :=
  match idxOfSub gpsMarker response with
  | some start =>
    let g := gpsFixField response start
    if g ≠ noFixPattern ∧ g ≠ [] then "L:".toList ++ g else "L:9999.0".toList
  | none => "L:9999.0".toList

/-- `getGPSLocation` of the standalone tracker variant
(stm32_a9g/src/main.cpp lines 88-100): sentinel `"L:No Fix0"`. -/
def getGPSLocationA9G (response : List Char) : List Char :=
  match idxOfSub gpsMarker response with
  | some start =>
    let g := gpsFixField response start
    if g ≠ noFixPattern ∧ g ≠ [] then "L:".toList ++ g else "L:No Fix0".toList
  | none => "L:No Fix0".toList

/-- The three modem responses one `sendSMS` call observes, through its three
`sendATCommand` transactions
(stm32_cc1101_receiver_a9g_sms/src/main.cpp lines 182-197). -/
structure ModemResponses where
  mgfResp : List Char
  cmgsResp : List Char
  finalResp : List Char
deriving DecidableEq

/-- `sendSMS` (stm32_cc1101_receiver_a9g_sms/src/main.cpp lines 182-197).
Result: (return value, message-body bytes written to the A9G serial port —
the body plus the Ctrl+Z end-of-message byte 26, or nothing when a step
aborted before the body was printed). -/
def sendSMSModel (message : List Char) (mr : ModemResponses) : Bool × List Char :=
  if hasSub "OK".toList mr.mgfResp = false then (false, [])
  else if hasSub ">".toList mr.cmgsResp = false then (false, [])
  else (hasSub "+CMGS:".toList mr.finalResp, message ++ [Char.ofNat 26])

/-- Terminator test of `sendATCommand`
(stm32_cc1101_receiver_a9g_sms/src/main.cpp line 209): the accumulator
contains `"OK"`, `"ERROR"` or `">"`. -/
def hasTerm (s : List Char) : Bool :=
  hasSub "OK".toList s || hasSub "ERROR".toList s || hasSub ">".toList s

/-- One time-unit of `sendATCommand`'s wait loop: consume the bytes that
became available this unit one by one, appending each to the accumulator and
stopping as soon as the accumulator contains a terminator (the `break` at
line 210). -/
def drain : List Char → List Char → List Char × Bool
  | acc, [] => (acc, false)
  | acc, c :: cs =>
    if hasTerm (acc ++ [c]) then (acc ++ [c], true) else drain (acc ++ [c]) cs

/-- The wait loop of `sendATCommand`
(stm32_cc1101_receiver_a9g_sms/src/main.cpp lines 205-213) under a discrete
clock: at each time unit `t < timeout` the bytes `stream t` arrive; the loop
exits early when a terminator appears, else at the deadline.  Returns the
accumulator and the exit time. -/
def runAT (stream : Nat → List Char) : Nat → Nat → List Char → List Char × Nat
  | t, 0, acc => (acc, t)
  | t, fuel + 1, acc =>
    match drain acc (stream t) with
    | (acc2, true) => (acc2, t)
    | (acc2, false) => runAT stream (t + 1) fuel acc2

/-- `sendATCommand` (stm32_cc1101_receiver_a9g_sms/src/main.cpp lines
199-216).  The command is written with a line terminator (`println`) before
the wait loop runs; it does not influence the returned text.  The function
is total: it never raises an error. -/
def sendATCommand (command : List Char) (stream : Nat → List Char) (timeout : Nat) :
    (List Char × Nat) × List Char :=
  (runAT stream 0 timeout [], command ++ [Char.ofNat 13, Char.ofNat 10])

/-- All the bytes the peripheral makes available strictly before time
`t + fuel`, starting at time `t`. -/
def seg (stream : Nat → List Char) : Nat → Nat → List Char
  | _, 0 => []
  | t, fuel + 1 => stream t ++ seg stream (t + 1) fuel

/-- The staleness gate of the SMS relay path
(stm32_cc1101_receiver_a9g_sms/src/main.cpp lines 114-117): the reading the
relay attempt consumes at `now`, given the cache and its receive timestamp
`lastRx`. -/
def staleCheck (cache : SensorData) (lastRx now : Nat) : SensorData :=
  if 300000 < u32sub now lastRx then allSentinel else cache

/-- The radio-ingest step of `loop`
(stm32_cc1101_receiver_a9g_sms/src/main.cpp lines 93-106): the received
frame is decoded straight into the cache variable `lastReceivedData`
(passed by reference), so the cache afterwards is the decode output in every
case; the Bool is the decode success. -/
def radioIngest (_cache : SensorData) (frame : List Char) : SensorData × Bool :=
  let r := parseSensorData frame
  (r.2, r.1)

/-- The scheduler timestamps of the MQTT-variant `loop`
(stm32_cc1101_receiver_a9g_mqtt/src/main.cpp lines 55-57). -/
structure SchedState where
  prevMQTT : Nat
  prevSMS : Nat
  prevReset : Nat
deriving DecidableEq

/-- One generic timer check in the style of the MQTT and SMS timers
(stm32_cc1101_receiver_a9g_mqtt/src/main.cpp lines 131-132 and 150-151):
fire when `now - last_fired >= interval` (32-bit arithmetic) and set
`last_fired := now` upon firing. -/
def timerStep (interval last now : Nat) : Nat × Bool :=
  if interval ≤ u32sub now last then (now, true) else (last, false)

/-- One scheduling tick of the MQTT-variant `loop`
(stm32_cc1101_receiver_a9g_mqtt/src/main.cpp lines 128-177), timer
bookkeeping only: returns the new timestamps and the (MQTT, SMS, reset)
fired flags.  The reset branch (lines 174-176) calls `resetBluePill()`
without updating `previousResetMillis`. -/
def schedTick (st : SchedState) (now : Nat) : SchedState × (Bool × Bool × Bool) :=
  let fm := decide (60000 ≤ u32sub now st.prevMQTT)
  let pm := if fm then now else st.prevMQTT
  let fs := decide (1800000 ≤ u32sub now st.prevSMS)
  let ps := if fs then now else st.prevSMS
  let fr := decide (2400000 ≤ u32sub now st.prevReset)
  (⟨pm, ps, st.prevReset⟩, (fm, fs, fr))

/-- Unit-by-unit simulation of one generic timer: ticks at times
`t, t+1, ..., t+k-1`, threading `last_fired` and counting fires. -/
def runTimerFrom (interval : Nat) : Nat → Nat → Nat → Nat → Nat × Nat
  | _, 0, last, cnt => (last, cnt)
  | t, k + 1, last, cnt =>
    let s := timerStep interval last t
    runTimerFrom interval (t + 1) k s.1 (cnt + if s.2 then 1 else 0)

/-- Unit-by-unit simulation of a timer with `last_fired = 0` over the ticks
at times `1, .., E`: final `last_fired` and total number of fires. -/
def runTimer (interval E : Nat) : Nat × Nat := runTimerFrom interval 1 E 0 0

/-- Follows the spec's words, for comparison with `parseFloat`: "scan the
substring for the first maximal run of [0-9.-]; if none found, the field
value is the sentinel", the run being read as a number. -/
def specFirstRunExtract (s : List Char) : ℚ :=
  let t := s.dropWhile (fun c => !(isNumChar c))
  if t.isEmpty then 9999 else atofQ (t.takeWhile isNumChar)

/-- Byte stream for the transaction-engine witness: the peripheral emits
`"OK"` at time 5, half of the 10-unit timeout. -/
def okStream5 : Nat → List Char := fun t => if t = 5 then "OK".toList else []

/-- Byte stream of a peripheral that never responds. -/
def silentStream : Nat → List Char := fun _ => []

/-- `u32sub (b + d) b = d` for any base `b` once `d` fits in 32 bits:
elapsed-time subtraction on `millis()` values is wrap-around safe. -/
theorem u32sub_add (b d : Nat) (h : d < 4294967296) : u32sub (b + d) b = d := by
  unfold u32sub
  omega

/-- `u32sub` is plain subtraction below 2^32. -/
theorem u32sub_of_le (a b : Nat) (hb : b ≤ a) (ha : a < 4294967296) : u32sub a b = a - b := by
  unfold u32sub
  omega

/-- A failed lenient decode always leaves the output struct all-sentinel:
either a label was missing (sentinels assigned at entry survive), or every
field parsed to 9999.0. -/
theorem parse_fail_sentinel (s : List Char) (h : (parseSensorData s).1 = false) :
    (parseSensorData s).2 = allSentinel := by
  cases ht : idxOfSub tLabel s <;> cases hh : idxOfSub hLabel s <;> cases hp : idxOfSub pLabel s <;>
    simp_all [parseSensorData, allSentinel, SensorData.ext_iff]

/-- C1: the lenient frame decode returns `true` iff at least one parsed
field differs from the sentinel 9999.0; when a label is absent it returns
`false` with the output all-sentinel; whenever the output is all-sentinel
the result is `false`; and `decode("T:,H:,P:")` is the all-sentinel
failure. -/
theorem parseSensorData_success_iff (s : List Char) :
    ((parseSensorData s).1 = true ↔
      ((parseSensorData s).2.temperature ≠ 9999 ∨ (parseSensorData s).2.humidity ≠ 9999 ∨
        (parseSensorData s).2.pressure ≠ 9999))
    ∧ ((idxOfSub tLabel s = none ∨ idxOfSub hLabel s = none ∨ idxOfSub pLabel s = none) →
        parseSensorData s = (false, allSentinel))
    ∧ ((parseSensorData s).2 = allSentinel → (parseSensorData s).1 = false)
    ∧ parseSensorData ("T:,H:,P:".toList) = (false, allSentinel) := by
  refine ⟨?_, ?_, ?_, by decide⟩ <;>
    cases ht : idxOfSub tLabel s <;> cases hh : idxOfSub hLabel s <;>
      cases hp : idxOfSub pLabel s <;>
      simp_all [parseSensorData, allSentinel, SensorData.ext_iff]

/-- C1 witness: the label-absence and all-sentinel hypotheses discharged on
`"garbage"` (no labels at all). -/
theorem parseSensorData_success_iff_witness :
    parseSensorData ("garbage".toList) = (false, allSentinel)
    ∧ ((parseSensorData ("garbage".toList)).1 = true ↔
      ((parseSensorData ("garbage".toList)).2.temperature ≠ 9999 ∨
        (parseSensorData ("garbage".toList)).2.humidity ≠ 9999 ∨
        (parseSensorData ("garbage".toList)).2.pressure ≠ 9999)) :=
  ⟨(parseSensorData_success_iff ("garbage".toList)).2.1 (by decide),
    (parseSensorData_success_iff ("garbage".toList)).1⟩

/-- C4 counterexample: a failed decode does not leave the cache untouched —
receiving the undecodable frame `"garbage"` over a cache holding
(21.5, 55.3, 1013.25) overwrites it with the all-sentinel reading. -/
theorem radioIngest_clobbers_cache :
    radioIngest ⟨43/2, 553/10, 4053/4⟩ ("garbage".toList) = (allSentinel, false)
    ∧ allSentinel ≠ (⟨43/2, 553/10, 4053/4⟩ : SensorData) := by
  constructor
  · decide
  · with_unfolding_all decide

/-- C4 (amended): after a failed decode the cache holds the all-sentinel
reading, whatever it held before — `parseSensorData` assigns the sentinels
into the caller's struct at entry. -/
theorem radioIngest_fail_all_sentinel (cache : SensorData) (frame : List Char)
    (h : (radioIngest cache frame).2 = false) :
    (radioIngest cache frame).1 = allSentinel :=
  parse_fail_sentinel frame h

/-- C4 witness: the amended theorem at the concrete failing frame. -/
theorem radioIngest_fail_all_sentinel_witness :
    (radioIngest ⟨1, 2, 3⟩ ("junk".toList)).2 = false
    ∧ (radioIngest ⟨1, 2, 3⟩ ("junk".toList)).1 = allSentinel :=
  ⟨by decide, radioIngest_fail_all_sentinel ⟨1, 2, 3⟩ ("junk".toList) (by decide)⟩

/-- C8: `sendSMS` aborts with `false` and writes no message-body byte when
the text-mode response lacks "OK" or the recipient response lacks ">";
otherwise it writes the body followed by the Ctrl+Z end-of-message byte and
returns `true` iff the final response contains "+CMGS:". -/
theorem sendSMS_spec (message : List Char) (mr : ModemResponses) :
    (hasSub "OK".toList mr.mgfResp = false → sendSMSModel message mr = (false, []))
    ∧ (hasSub ">".toList mr.cmgsResp = false → sendSMSModel message mr = (false, []))
    ∧ (hasSub "OK".toList mr.mgfResp = true → hasSub ">".toList mr.cmgsResp = true →
        (sendSMSModel message mr).2 = message ++ [Char.ofNat 26]
        ∧ ((sendSMSModel message mr).1 = true ↔ hasSub "+CMGS:".toList mr.finalResp = true)) := by
  refine ⟨fun h1 => ?_, fun h2 => ?_, fun h1 h2 => ?_⟩
  · simp only [sendSMSModel, h1]
    simp
  · rcases Bool.eq_false_or_eq_true (hasSub "OK".toList mr.mgfResp) with h1 | h1 <;>
      simp only [sendSMSModel, h1, h2] <;> simp
  · simp only [sendSMSModel, h1, h2]
    simp

/-- C8 witness: a successful exchange — "OK", ">", "+CMGS: 5" — with the
body "hi". -/
theorem sendSMS_spec_witness :
    (sendSMSModel ("hi".toList) ⟨"OK".toList, ">".toList, "+CMGS: 5".toList⟩).2 =
      "hi".toList ++ [Char.ofNat 26]
    ∧ ((sendSMSModel ("hi".toList) ⟨"OK".toList, ">".toList, "+CMGS: 5".toList⟩).1 = true ↔
        hasSub "+CMGS:".toList ("+CMGS: 5".toList) = true) :=
  (sendSMS_spec ("hi".toList) ⟨"OK".toList, ">".toList, "+CMGS: 5".toList⟩).2.2
    (by decide) (by decide)

/-- C9: with the 300000 ms staleness threshold, a reading cached at `t0` is
replaced by the all-sentinel reading when consumed 301 scaled time-units
later, still delivered 299 units later, and — the comparison being a strict
"exceeds" — still delivered exactly at the threshold. -/
theorem staleCheck_boundaries (cache : SensorData) (t0 : Nat) :
    staleCheck cache t0 (t0 + 301000) = allSentinel
    ∧ staleCheck cache t0 (t0 + 299000) = cache
    ∧ staleCheck cache t0 (t0 + 300000) = cache := by
  unfold staleCheck
  rw [u32sub_add t0 301000 (by norm_num), u32sub_add t0 299000 (by norm_num),
    u32sub_add t0 300000 (by norm_num)]
  norm_num

/-- C5 counterexample: in the receiver/relay variants the no-fix sentinel is
`"L:9999.0"`, not `"L:No Fix0"` as claimed — e.g. on the empty response. -/
theorem getGPSLocationRecv_sentinel_mismatch :
    getGPSLocationRecv [] = "L:9999.0".toList
    ∧ "L:9999.0".toList ≠ "L:No Fix0".toList := by decide

/-- C5 (amended): for every response without the `"+CGPSINFO:"` marker, or
whose extracted fix field is empty or `",,,,,,,,"`, `getGPSLocation` returns
its variant's sentinel — `"L:9999.0"` in the receiver/relay variants,
`"L:No Fix0"` in the standalone tracker variant; for every response with a
usable fix both return `"L:"` followed by the raw fix field. -/
theorem getGPSLocation_spec (response : List Char) :
    (idxOfSub gpsMarker response = none →
      getGPSLocationRecv response = "L:9999.0".toList
      ∧ getGPSLocationA9G response = "L:No Fix0".toList)
    ∧ (∀ start, idxOfSub gpsMarker response = some start →
        ((gpsFixField response start = [] ∨ gpsFixField response start = noFixPattern) →
          getGPSLocationRecv response = "L:9999.0".toList
          ∧ getGPSLocationA9G response = "L:No Fix0".toList)
        ∧ (gpsFixField response start ≠ [] → gpsFixField response start ≠ noFixPattern →
          getGPSLocationRecv response = "L:".toList ++ gpsFixField response start
          ∧ getGPSLocationA9G response = "L:".toList ++ gpsFixField response start)) := by
  refine ⟨fun h => ?_, fun start h => ⟨fun hbad => ?_, fun h1 h2 => ?_⟩⟩
  · simp [getGPSLocationRecv, getGPSLocationA9G, h]
  · rcases hbad with hb | hb <;> simp [getGPSLocationRecv, getGPSLocationA9G, h, hb]
  · simp [getGPSLocationRecv, getGPSLocationA9G, h, h1, h2]

/-- C5 witness: a usable fix `"12,N"` and the marker-absent case. -/
theorem getGPSLocation_spec_witness :
    (getGPSLocationRecv ("+CGPSINFO:12,N\rOK".toList) =
        "L:".toList ++ gpsFixField ("+CGPSINFO:12,N\rOK".toList) 0
      ∧ getGPSLocationA9G ("+CGPSINFO:12,N\rOK".toList) =
        "L:".toList ++ gpsFixField ("+CGPSINFO:12,N\rOK".toList) 0)
    ∧ (getGPSLocationRecv ("no marker here".toList) = "L:9999.0".toList
      ∧ getGPSLocationA9G ("no marker here".toList) = "L:No Fix0".toList) :=
  ⟨((getGPSLocation_spec ("+CGPSINFO:12,N\rOK".toList)).2 0 (by decide)).2
      (by decide) (by decide),
    (getGPSLocation_spec ("no marker here".toList)).1 (by decide)⟩

/-- C6 counterexample: the claim's "leading non-numeric text is skipped and
the embedded number is recovered" fails — `parseFloat("abc42")` is
`atof("abc42") = 0`, while the spec's first-maximal-run extraction yields
42. -/
theorem parseFloat_not_first_run :
    parseFloat ("abc42".toList) = 0
    ∧ specFirstRunExtract ("abc42".toList) = 42
    ∧ parseFloat ("abc42".toList) ≠ specFirstRunExtract ("abc42".toList) := by
  refine ⟨?_, ?_, ?_⟩ <;> with_unfolding_all decide

/-- C6 (amended): the extraction applies C `atof` to the whole substring —
sentinel when the substring is empty or has no character of `[0-9.-]`,
otherwise the value of the substring's numeric prefix, which is 0 whenever
the substring starts with text that is not whitespace, a sign, a digit or a
point (an embedded number after such text is NOT recovered). -/
theorem parseFloat_atof_semantics (s : List Char) :
    (s.any isNumChar = false → parseFloat s = 9999)
    ∧ (s.any isNumChar = true → parseFloat s = atofQ s)
    ∧ (∀ u v, u ≠ [] →
        (∀ c ∈ u, isSpaceChar c = false ∧ isNumChar c = false ∧ c.toNat ≠ 43) →
        atofQ (u ++ v) = 0) := by
  refine ⟨fun h => ?_, fun h => ?_, fun u v hu hchars => ?_⟩
  · unfold parseFloat
    cases s <;> simp_all
  · unfold parseFloat
    have hne : ¬ s.isEmpty = true := by
      cases s with
      | nil => simp at h
      | cons c cs => simp
    simp [hne, h]
  · cases u with
    | nil => exact absurd rfl hu
    | cons c u' =>
      obtain ⟨hsp, hnum, hplus⟩ := hchars c (List.mem_cons_self c u')
      simp only [isNumChar, isDigitChar, Bool.or_eq_false_iff, beq_eq_false_iff_ne,
        ne_eq] at hnum
      obtain ⟨⟨hdig, hdot⟩, hminus⟩ := hnum
      have hdig2 : isDigitChar c = false := by
        simp [isDigitChar, hdig]
      unfold atofQ
      simp only [List.cons_append, List.dropWhile_cons, hsp, Bool.false_eq_true, if_false]
      simp [parseSign, parseDigitsAux, hdig2, hdot, hminus, hplus]

/-- C6 witness: the amended semantics exercised — no numeric character
gives the sentinel, a numeric prefix is read by atof, and leading junk
forces 0. -/
theorem parseFloat_atof_semantics_witness :
    parseFloat ("abc".toList) = 9999
    ∧ parseFloat ("12.5x".toList) = atofQ ("12.5x".toList)
    ∧ atofQ ("xy".toList ++ "42".toList) = 0 :=
  ⟨(parseFloat_atof_semantics ("abc".toList)).1 (by decide),
    (parseFloat_atof_semantics ("12.5x".toList)).2.1 (by decide),
    (parseFloat_atof_semantics ("12.5x".toList)).2.2 ("xy".toList) ("42".toList)
      (by decide) (by decide)⟩

/-- C10 counterexample: the device-reset timer does not set `last_fired` to
`now` upon firing — `previousResetMillis` stays 0 — so on a unit-by-unit
simulated clock it fires again on the very next tick (a double-fire,
contradicting the floor(elapsed/interval) fire count). -/
theorem resetTimer_double_fire :
    (schedTick ⟨0, 0, 0⟩ 2400000).2.2.2 = true
    ∧ (schedTick ⟨0, 0, 0⟩ 2400000).1.prevReset = 0
    ∧ (schedTick (schedTick ⟨0, 0, 0⟩ 2400000).1 2400001).2.2.2 = true := by decide

/-- Closed form of the unit-by-unit timer simulation for an
update-on-fire timer: starting a tick sequence at time `t` with
`last_fired = interval * ((t-1)/interval)`, after `k` ticks the timer has
fired once per freshly completed interval. -/
theorem runTimerFrom_closed (i : Nat) (hi : 0 < i) :
    ∀ k t cnt, 0 < t → t + k ≤ 4294967296 →
      runTimerFrom i t k (i * ((t - 1) / i)) cnt =
        (i * ((t - 1 + k) / i), cnt + ((t - 1 + k) / i - (t - 1) / i)) := by
  intro k
  induction k with
  | zero =>
    intro t cnt ht hW
    simp [runTimerFrom]
  | succ k ih =>
    intro t cnt ht hW
    have hle : i * ((t - 1) / i) ≤ t - 1 := by
      rw [Nat.mul_comm]
      exact Nat.div_mul_le_self _ _
    have hsub : u32sub t (i * ((t - 1) / i)) = t - i * ((t - 1) / i) :=
      u32sub_of_le _ _ (by omega) (by omega)
    have harg : t - 1 + (k + 1) = t + k := by omega
    by_cases hfire : i ≤ t - i * ((t - 1) / i)
    · have hdvd : t = i * ((t - 1) / i) + i := by
        have h := Nat.div_add_mod (t - 1) i
        have hr := Nat.mod_lt (t - 1) hi
        generalize hM : i * ((t - 1) / i) = M at h hfire ⊢
        omega
      have htdiv : t / i = (t - 1) / i + 1 := by
        calc t / i = (i * ((t - 1) / i) + i) / i := by rw [← hdvd]
          _ = i * ((t - 1) / i + 1) / i := by rw [Nat.mul_succ]
          _ = (t - 1) / i + 1 := Nat.mul_div_cancel_left _ hi
      have hlast2 : t = i * (t / i) := by
        rw [htdiv, Nat.mul_succ, ← hdvd]
      have step : runTimerFrom i t (k + 1) (i * ((t - 1) / i)) cnt =
          runTimerFrom i (t + 1) k t (cnt + 1) := by
        simp [runTimerFrom, timerStep, hsub, hfire]
      have step2 : runTimerFrom i (t + 1) k t (cnt + 1) =
          runTimerFrom i (t + 1) k (i * (t / i)) (cnt + 1) := by
        rw [← hlast2]
      have ih' := ih (t + 1) (cnt + 1) (by omega) (by omega)
      simp only [Nat.add_sub_cancel] at ih'
      rw [step, step2, ih', harg]
      have hmono : t / i ≤ (t + k) / i := Nat.div_le_div_right (by omega)
      simp only [Prod.mk.injEq]
      exact ⟨trivial, by omega⟩
    · have hnd : t = i * ((t - 1) / i) + ((t - 1) % i + 1) := by
        have h := Nat.div_add_mod (t - 1) i
        generalize hM : i * ((t - 1) / i) = M at h ⊢
        omega
      have hlt : (t - 1) % i + 1 < i := by
        have h := Nat.div_add_mod (t - 1) i
        have hr := Nat.mod_lt (t - 1) hi
        generalize hM : i * ((t - 1) / i) = M at h hfire
        omega
      have htdiv : t / i = (t - 1) / i := by
        calc t / i = (i * ((t - 1) / i) + ((t - 1) % i + 1)) / i := by rw [← hnd]
          _ = (t - 1) / i + ((t - 1) % i + 1) / i := Nat.mul_add_div hi _ _
          _ = (t - 1) / i := by rw [Nat.div_eq_of_lt hlt, Nat.add_zero]
      have hlast2 : i * ((t - 1) / i) = i * (t / i) := by rw [htdiv]
      have step : runTimerFrom i t (k + 1) (i * ((t - 1) / i)) cnt =
          runTimerFrom i (t + 1) k (i * ((t - 1) / i)) cnt := by
        simp [runTimerFrom, timerStep, hsub, hfire]
      have step2 : runTimerFrom i (t + 1) k (i * ((t - 1) / i)) cnt =
          runTimerFrom i (t + 1) k (i * (t / i)) cnt := by
        rw [← hlast2]
      have ih' := ih (t + 1) cnt (by omega) (by omega)
      simp only [Nat.add_sub_cancel] at ih'
      rw [step, step2, ih', harg]
      simp only [Prod.mk.injEq]
      exact ⟨trivial, by rw [htdiv]⟩

/-- C10 (amended): an update-on-fire timer of the scheduler — the MQTT and
SMS timers — fires exactly when `now - last_fired >= interval`, sets
`last_fired := now` upon firing, and under a unit-by-unit simulated clock
fires exactly `floor(elapsed/interval)` times with no double-fires; the
MQTT and SMS components of a scheduling tick are exactly such timers, while
the reset activity fires on `now - previousResetMillis >= interval` but
leaves `previousResetMillis` unchanged (it performs a full device reset
instead). -/
theorem scheduler_timer_law (i E : Nat) (hi : 0 < i) (hE : E < 4294967296) :
    runTimer i E = (i * (E / i), E / i)
    ∧ (∀ st now,
        schedTick st now =
          (⟨(timerStep 60000 st.prevMQTT now).1, (timerStep 1800000 st.prevSMS now).1,
              st.prevReset⟩,
            ((timerStep 60000 st.prevMQTT now).2, (timerStep 1800000 st.prevSMS now).2,
              decide (2400000 ≤ u32sub now st.prevReset)))) := by
  constructor
  · have h0 : i * ((1 - 1) / i) = 0 := by simp
    have hcl := runTimerFrom_closed i hi E 1 0 (by omega) (by omega)
    have heq : runTimerFrom i 1 E 0 0 = runTimerFrom i 1 E (i * ((1 - 1) / i)) 0 := by
      rw [h0]
    unfold runTimer
    rw [heq, hcl]
    simp
  · intro st now
    by_cases h1 : 60000 ≤ u32sub now st.prevMQTT <;>
      by_cases h2 : 1800000 ≤ u32sub now st.prevSMS <;>
        simp [schedTick, timerStep, h1, h2]

/-- C10 witness: interval 60 over 150 elapsed units — the timer fires
exactly twice, floor(150/60); plus a concrete scheduling tick. -/
theorem scheduler_timer_law_witness :
    runTimer 60 150 = (60 * (150 / 60), 150 / 60)
    ∧ schedTick ⟨0, 0, 0⟩ 60000 =
        (⟨(timerStep 60000 0 60000).1, (timerStep 1800000 0 60000).1, 0⟩,
          ((timerStep 60000 0 60000).2, (timerStep 1800000 0 60000).2,
            decide (2400000 ≤ u32sub 60000 0))) :=
  ⟨(scheduler_timer_law 60 150 (by decide) (by decide)).1,
    (scheduler_timer_law 60 150 (by decide) (by decide)).2 ⟨0, 0, 0⟩ 60000⟩

/-- A drain pass that found no terminator appended every available byte and
still has no terminator in the accumulator. -/
theorem drain_no_find (bs : List Char) : ∀ acc a2, hasTerm acc = false →
    drain acc bs = (a2, false) → a2 = acc ++ bs ∧ hasTerm a2 = false := by
  induction bs with
  | nil =>
    intro acc a2 h hd
    simp only [drain, Prod.mk.injEq] at hd
    simp [← hd.1, h]
  | cons c cs ih =>
    intro acc a2 h hd
    unfold drain at hd
    by_cases hterm : hasTerm (acc ++ [c]) = true
    · simp [hterm] at hd
    · have hterm2 : hasTerm (acc ++ [c]) = false := by simpa using hterm
      simp only [hterm2, Bool.false_eq_true, if_false] at hd
      obtain ⟨h1, h2⟩ := ih (acc ++ [c]) a2 hterm2 hd
      exact ⟨by simp [h1], h2⟩

/-- A drain pass that found a terminator stopped at the very byte that
completed it: the accumulator now contains a terminator, its `dropLast` does
not, and only a prefix of the available bytes was consumed. -/
theorem drain_find (bs : List Char) : ∀ acc a2, hasTerm acc = false →
    drain acc bs = (a2, true) →
      hasTerm a2 = true ∧ hasTerm a2.dropLast = false
      ∧ ∃ u r2, bs = u ++ r2 ∧ a2 = acc ++ u := by
  induction bs with
  | nil =>
    intro acc a2 h hd
    simp [drain] at hd
  | cons c cs ih =>
    intro acc a2 h hd
    unfold drain at hd
    by_cases hterm : hasTerm (acc ++ [c]) = true
    · simp only [hterm, if_true, Prod.mk.injEq] at hd
      refine ⟨by rw [← hd.1]; exact hterm, ?_, [c], cs, rfl, by rw [← hd.1]⟩
      rw [← hd.1, List.dropLast_concat]
      exact h
    · have hterm2 : hasTerm (acc ++ [c]) = false := by simpa using hterm
      simp only [hterm2, Bool.false_eq_true, if_false] at hd
      obtain ⟨ht1, ht2, u, r2, hbs, ha⟩ := ih (acc ++ [c]) a2 hterm2 hd
      exact ⟨ht1, ht2, c :: u, r2, by simp [hbs], by simp [ha]⟩

/-- Behaviour of the transaction wait loop, by induction on the remaining
budget: the exit time is within the deadline; the returned text is a prefix
of what the peripheral delivered; on a terminator exit the terminator
appeared with the very last byte and the exit is strictly early; with no
terminator the loop returns the whole delivery exactly at the deadline. -/
theorem runAT_spec (stream : Nat → List Char) :
    ∀ fuel t acc, hasTerm acc = false →
      t ≤ (runAT stream t fuel acc).2
      ∧ (runAT stream t fuel acc).2 ≤ t + fuel
      ∧ (∃ rest, acc ++ seg stream t fuel = (runAT stream t fuel acc).1 ++ rest)
      ∧ (hasTerm (runAT stream t fuel acc).1 = true →
          hasTerm (runAT stream t fuel acc).1.dropLast = false
          ∧ (runAT stream t fuel acc).2 < t + fuel)
      ∧ (hasTerm (runAT stream t fuel acc).1 = false →
          (runAT stream t fuel acc).2 = t + fuel
          ∧ (runAT stream t fuel acc).1 = acc ++ seg stream t fuel) := by
  intro fuel
  induction fuel with
  | zero =>
    intro t acc h
    simp only [runAT, seg]
    refine ⟨le_refl t, by omega, ⟨[], by simp⟩, fun hc => ?_, fun _ => ⟨by omega, by simp⟩⟩
    rw [h] at hc
    exact absurd hc (by simp)
  | succ fuel ih =>
    intro t acc h
    rcases hd : drain acc (stream t) with ⟨a2, found⟩
    cases found with
    | false =>
      obtain ⟨heq, hterm2⟩ := drain_no_find (stream t) acc a2 h hd
      have hstep : runAT stream t (fuel + 1) acc = runAT stream (t + 1) fuel a2 := by
        simp only [runAT, hd]
      obtain ⟨i1, i2, ⟨rest, i3⟩, i4, i5⟩ := ih (t + 1) a2 hterm2
      rw [hstep]
      have hseg : acc ++ seg stream t (fuel + 1) = a2 ++ seg stream (t + 1) fuel := by
        simp only [seg, heq]
        simp
      refine ⟨by omega, by omega, ⟨rest, ?_⟩, fun hc => ?_, fun hc => ?_⟩
      · rw [hseg, i3]
      · exact ⟨(i4 hc).1, by have := (i4 hc).2; omega⟩
      · refine ⟨by have := (i5 hc).1; omega, ?_⟩
        rw [hseg]
        exact (i5 hc).2
    | true =>
      obtain ⟨ht1, ht2, u, r2, hbs, ha⟩ := drain_find (stream t) acc a2 h hd
      have hstep : runAT stream t (fuel + 1) acc = (a2, t) := by
        simp only [runAT, hd]
      rw [hstep]
      refine ⟨le_refl t, by omega, ⟨r2 ++ seg stream (t + 1) fuel, ?_⟩, fun _ => ⟨ht2, by omega⟩,
        fun hc => absurd (hc ▸ ht1) (by simp)⟩
      simp only [seg, hbs, ha]
      simp

/-- C3: `sendATCommand` writes the command plus line terminator, then
returns the accumulated response verbatim: the exit time never exceeds the
timeout; the returned text is a prefix of the delivered bytes; when a
terminator substring ("OK"/"ERROR"/">") is present the loop stopped at the
byte completing it, strictly before the deadline; when none ever appears
the (possibly empty) accumulated text is returned exactly at the timeout
boundary.  The function is total — it never raises an error. -/
theorem sendATCommand_spec (command : List Char) (stream : Nat → List Char) (timeout : Nat) :
    (sendATCommand command stream timeout).2 = command ++ [Char.ofNat 13, Char.ofNat 10]
    ∧ (sendATCommand command stream timeout).1.2 ≤ timeout
    ∧ (∃ rest, seg stream 0 timeout = (sendATCommand command stream timeout).1.1 ++ rest)
    ∧ (hasTerm (sendATCommand command stream timeout).1.1 = true →
        hasTerm (sendATCommand command stream timeout).1.1.dropLast = false
        ∧ (sendATCommand command stream timeout).1.2 < timeout)
    ∧ (hasTerm (sendATCommand command stream timeout).1.1 = false →
        (sendATCommand command stream timeout).1.2 = timeout
        ∧ (sendATCommand command stream timeout).1.1 = seg stream 0 timeout) := by
  have h := runAT_spec stream timeout 0 [] (by decide)
  unfold sendATCommand
  simpa using h

/-- C3 witness: a peripheral that emits "OK" at time 5 — half the timeout
10 — makes the engine return text containing "OK" strictly before the
deadline; a silent peripheral yields the empty accumulator exactly at the
deadline. -/
theorem sendATCommand_spec_witness :
    (hasTerm (sendATCommand ("AT".toList) okStream5 10).1.1 = true
      ∧ (sendATCommand ("AT".toList) okStream5 10).1.2 < 10)
    ∧ (hasTerm (sendATCommand ("AT".toList) silentStream 10).1.1 = false
      ∧ (sendATCommand ("AT".toList) silentStream 10).1.2 = 10
      ∧ (sendATCommand ("AT".toList) silentStream 10).1.1 = seg silentStream 0 10) :=
  ⟨⟨by decide, ((sendATCommand_spec ("AT".toList) okStream5 10).2.2.2.1 (by decide)).2⟩,
    ⟨by decide, ((sendATCommand_spec ("AT".toList) silentStream 10).2.2.2.2 (by decide)).1,
      ((sendATCommand_spec ("AT".toList) silentStream 10).2.2.2.2 (by decide)).2⟩⟩

/-- Big-endian accumulation of a digit string, as `parseDigitsAux`
accumulates it. -/
def foldVal (acc : Nat) (ds : List Char) : Nat :=
  ds.foldl (fun a c => 10 * a + (c.toNat - 48)) acc

/-- "The next character, if any, is not a digit" — the condition under
which a digit-run parse stops. -/
def headNotDigit : List Char → Prop
  | [] => True
  | c :: _ => isDigitChar c = false

/-- "The next character, if any, continues neither a number nor an
exponent". -/
def stopsNum : List Char → Prop
  | [] => True
  | c :: _ => isDigitChar c = false ∧ c.toNat ≠ 46 ∧ c.toNat ≠ 101 ∧ c.toNat ≠ 69

theorem digitChar_toNat (d : Nat) (h : d < 10) : (digitChar d).toNat = 48 + d := by
  interval_cases d <;> decide

theorem isDigitChar_digitChar (d : Nat) (h : d < 10) : isDigitChar (digitChar d) = true := by
  interval_cases d <;> decide

/-- A digit character is not whitespace, not a sign, not a point — so the
scanners of `atofQ` pass straight into the digit run. -/
theorem digit_first_facts (c : Char) (h : isDigitChar c = true) :
    isSpaceChar c = false ∧ (c.toNat == 45) = false ∧ (c.toNat == 43) = false
    ∧ (c.toNat == 46) = false := by
  simp only [isDigitChar, Bool.and_eq_true, decide_eq_true_eq] at h
  refine ⟨?_, ?_, ?_, ?_⟩ <;> simp [isSpaceChar] <;> omega

/-- A `[0-9.-]` character is not a carriage return and is neither 'H' nor
'P' (so it cannot start one of those labels). -/
theorem numChar_facts (c : Char) (h : isNumChar c = true) :
    (c.toNat != 13) = true ∧ c ≠ 'H' ∧ c ≠ 'P' := by
  refine ⟨?_, fun heq => ?_, fun heq => ?_⟩
  · simp only [isNumChar, isDigitChar, Bool.or_eq_true, Bool.and_eq_true,
      decide_eq_true_eq, beq_iff_eq] at h
    simp only [bne_iff_ne, ne_eq]
    omega
  · rw [heq] at h
    exact absurd h (by decide)
  · rw [heq] at h
    exact absurd h (by decide)

/-- `natStrAux` with sufficient fuel: a nonempty all-digit string whose
big-endian accumulation recovers the number. -/
theorem natStrAux_spec : ∀ fuel n, n < fuel →
    natStrAux fuel n ≠ []
    ∧ (∀ c ∈ natStrAux fuel n, isDigitChar c = true)
    ∧ ∀ acc, foldVal acc (natStrAux fuel n) = acc * 10 ^ (natStrAux fuel n).length + n := by
  intro fuel
  induction fuel with
  | zero =>
    intro n h
    omega
  | succ fuel ih =>
    intro n h
    by_cases h10 : n < 10
    · refine ⟨by simp [natStrAux, h10], ?_, ?_⟩
      · intro c hc
        simp only [natStrAux, h10, if_true, List.mem_singleton] at hc
        rw [hc]
        exact isDigitChar_digitChar n h10
      · intro acc
        simp only [natStrAux, h10, if_true, foldVal, List.foldl, digitChar_toNat n h10,
          List.length_singleton, pow_one]
        omega
    · have hn2 : n / 10 < fuel := by omega
      obtain ⟨hne, hdig, hval⟩ := ih (n / 10) hn2
      have hmod : n % 10 < 10 := by omega
      refine ⟨by simp [natStrAux, h10], ?_, ?_⟩
      · intro c hc
        simp only [natStrAux, h10, if_false, List.mem_append, List.mem_singleton] at hc
        rcases hc with hc | hc
        · exact hdig c hc
        · rw [hc]
          exact isDigitChar_digitChar _ hmod
      · intro acc
        simp only [natStrAux, h10, if_false]
        rw [foldVal, List.foldl_append]
        have h1 : List.foldl (fun a c => 10 * a + (c.toNat - 48))
            (foldVal acc (natStrAux fuel (n / 10))) [digitChar (n % 10)] =
            10 * foldVal acc (natStrAux fuel (n / 10)) + n % 10 := by
          simp [List.foldl, digitChar_toNat _ hmod]
        rw [show List.foldl (fun a c => 10 * a + (c.toNat - 48)) acc (natStrAux fuel (n / 10)) =
            foldVal acc (natStrAux fuel (n / 10)) from rfl, h1, hval acc]
        have hdm : 10 * (n / 10) + n % 10 = n := Nat.div_add_mod n 10
        have hlen : (natStrAux fuel (n / 10) ++ [digitChar (n % 10)]).length =
            (natStrAux fuel (n / 10)).length + 1 := by simp
        rw [hlen]
        calc 10 * (acc * 10 ^ (natStrAux fuel (n / 10)).length + n / 10) + n % 10
            = acc * (10 ^ (natStrAux fuel (n / 10)).length * 10) + (10 * (n / 10) + n % 10) := by
              ring
          _ = acc * 10 ^ ((natStrAux fuel (n / 10)).length + 1) + n := by rw [hdm, pow_succ]

/-- `parseDigitsAux` on a digit run followed by a non-digit: consumes
exactly the run. -/
theorem parseDigits_run (ds : List Char) : ∀ rest acc cnt,
    (∀ c ∈ ds, isDigitChar c = true) → headNotDigit rest →
    parseDigitsAux acc cnt (ds ++ rest) = (foldVal acc ds, cnt + ds.length, rest) := by
  induction ds with
  | nil =>
    intro rest acc cnt _ hrest
    cases rest with
    | nil => simp [parseDigitsAux, foldVal]
    | cons c cs =>
      have hc : isDigitChar c = false := hrest
      simp [parseDigitsAux, foldVal, hc]
  | cons d ds' ih =>
    intro rest acc cnt hds hrest
    have hd := hds d (List.mem_cons_self d ds')
    simp only [List.cons_append, parseDigitsAux, hd, if_true, List.append_eq]
    rw [ih rest _ _ (fun c hc => hds c (List.mem_cons_of_mem _ hc)) hrest]
    simp only [Prod.mk.injEq, List.length_cons, foldVal, List.foldl_cons]
    refine ⟨?_, ?_, ?_⟩ <;> first | rfl | trivial | omega

theorem headNotDigit_of_stops (rest : List Char) (h : stopsNum rest) : headNotDigit rest := by
  cases rest with
  | nil => trivial
  | cons c cs => exact h.1

/-- A terminator-free tail cannot start an exponent, so `applyExp` is the
identity on it. -/
theorem applyExp_stops (m : ℚ) (rest : List Char) (h : stopsNum rest) : applyExp m rest = m := by
  cases rest with
  | nil => rfl
  | cons c cs =>
    obtain ⟨-, -, h101, h69⟩ := h
    have b101 : (c.toNat == 101) = false := by simpa using h101
    have b69 : (c.toNat == 69) = false := by simpa using h69
    simp [applyExp, b101, b69]

/-- `natStr n` is a nonempty digit string accumulating back to `n`. -/
theorem natStr_spec (n : Nat) :
    natStr n ≠ [] ∧ (∀ c ∈ natStr n, isDigitChar c = true)
    ∧ foldVal 0 (natStr n) = n := by
  obtain ⟨h1, h2, h3⟩ := natStrAux_spec (n + 1) n (by omega)
  exact ⟨h1, h2, by simpa using h3 0⟩

/-- Full evaluation of `atofQ` on a well-formed fixed-point print — optional
minus sign, digit run, point, digit run — followed by any tail that
continues neither the number nor an exponent. -/
theorem atofQ_eval (neg : Bool) (I frac rest : List Char)
    (hneI : I ≠ []) (hdigI : ∀ c ∈ I, isDigitChar c = true)
    (hdigF : ∀ c ∈ frac, isDigitChar c = true)
    (hrest : stopsNum rest) :
    atofQ ((if neg then ['-'] else []) ++ I ++ ('.' :: (frac ++ rest))) =
      (if neg then -1 else 1) *
        (((foldVal 0 I : ℕ) : ℚ) + ((foldVal 0 frac : ℕ) : ℚ) / 10 ^ frac.length) := by
  have hdot : headNotDigit ('.' :: (frac ++ rest)) := by
    show isDigitChar '.' = false
    decide
  have hrun1 : parseDigitsAux 0 0 (I ++ ('.' :: (frac ++ rest))) =
      (foldVal 0 I, 0 + I.length, '.' :: (frac ++ rest)) :=
    parseDigits_run I _ 0 0 hdigI hdot
  have hrun2 : parseDigitsAux 0 0 (frac ++ rest) =
      (foldVal 0 frac, 0 + frac.length, rest) :=
    parseDigits_run frac rest 0 0 hdigF (headNotDigit_of_stops rest hrest)
  have hlen0 : (I.length == 0) = false := by
    cases I with
    | nil => exact absurd rfl hneI
    | cons c cs => simp
  have hdot46 : ('.'.toNat == 46) = true := by decide
  have happ : ∀ x : ℚ, applyExp x rest = x := fun x => applyExp_stops x rest hrest
  cases neg with
  | true =>
    have hshape : (if true then ['-'] else []) ++ I ++ ('.' :: (frac ++ rest)) =
        '-' :: (I ++ ('.' :: (frac ++ rest))) := by simp
    rw [hshape]
    have hdw : ('-' :: (I ++ ('.' :: (frac ++ rest)))).dropWhile isSpaceChar =
        '-' :: (I ++ ('.' :: (frac ++ rest))) := by
      rw [List.dropWhile_cons_of_neg]
      decide
    have hsign : parseSign ('-' :: (I ++ ('.' :: (frac ++ rest)))) =
        (true, I ++ ('.' :: (frac ++ rest))) := by
      simp [parseSign]
    unfold atofQ
    simp [hdw, hsign, hrun1, hrun2, hdot46, hlen0, happ]
  | false =>
    simp only [Bool.false_eq_true, if_false, List.nil_append]
    obtain ⟨c0, cs, hI⟩ : ∃ c0 cs, I = c0 :: cs := by
      cases I with
      | nil => exact absurd rfl hneI
      | cons a l => exact ⟨a, l, rfl⟩
    obtain ⟨hsp0, h45, h43, h46⟩ := digit_first_facts c0
      (hdigI c0 (by rw [hI]; exact List.mem_cons_self c0 cs))
    have hshape : I ++ ('.' :: (frac ++ rest)) =
        c0 :: (cs ++ ('.' :: (frac ++ rest))) := by simp [hI]
    rw [hshape]
    have hdw : (c0 :: (cs ++ ('.' :: (frac ++ rest)))).dropWhile isSpaceChar =
        c0 :: (cs ++ ('.' :: (frac ++ rest))) := by
      rw [List.dropWhile_cons_of_neg]
      simp [hsp0]
    have hsign : parseSign (c0 :: (cs ++ ('.' :: (frac ++ rest)))) =
        (false, c0 :: (cs ++ ('.' :: (frac ++ rest)))) := by
      simp [parseSign, h45, h43]
    have hrun1b : parseDigitsAux 0 0 (c0 :: (cs ++ ('.' :: (frac ++ rest)))) =
        (foldVal 0 I, 0 + I.length, '.' :: (frac ++ rest)) := by
      rw [show c0 :: (cs ++ ('.' :: (frac ++ rest))) = I ++ ('.' :: (frac ++ rest)) by
        simp [hI]]
      exact hrun1
    unfold atofQ
    simp [hdw, hsign, hrun1b, hrun2, hdot46, hlen0, happ]

/-- `atof` re-reads a `%.2f` print (with any non-numeric tail) as exactly
the two-decimal rounding of the printed value. -/
theorem atofQ_fmt2 (q : ℚ) (rest : List Char) (hrest : stopsNum rest) :
    atofQ (fmt2 q ++ rest) = mRound2 q := by
  obtain ⟨hne, hdig, hval⟩ := natStr_spec (qRound2 q / 100)
  have hm1 : qRound2 q % 100 / 10 < 10 := by omega
  have hm2 : qRound2 q % 100 % 10 < 10 := by omega
  have hdigF : ∀ c ∈ [digitChar (qRound2 q % 100 / 10), digitChar (qRound2 q % 100 % 10)],
      isDigitChar c = true := by
    intro c hc
    simp only [List.mem_cons, List.not_mem_nil, or_false] at hc
    rcases hc with hc | hc <;> rw [hc]
    · exact isDigitChar_digitChar _ hm1
    · exact isDigitChar_digitChar _ hm2
  have hfold2 : foldVal 0 [digitChar (qRound2 q % 100 / 10), digitChar (qRound2 q % 100 % 10)] =
      qRound2 q % 100 := by
    simp only [foldVal, List.foldl, digitChar_toNat _ hm1, digitChar_toNat _ hm2]
    omega
  have hfv0 : foldVal 0 (natStr (qRound2 q / 100)) = qRound2 q / 100 := hval
  have hmant : ((qRound2 q / 100 : ℕ) : ℚ) + ((qRound2 q % 100 : ℕ) : ℚ) / 10 ^ (2 : ℕ) =
      (qRound2 q : ℚ) / 100 := by
    have h : 100 * (qRound2 q / 100) + qRound2 q % 100 = qRound2 q := Nat.div_add_mod _ 100
    have h2 : (100 : ℚ) * ((qRound2 q / 100 : ℕ) : ℚ) + ((qRound2 q % 100 : ℕ) : ℚ) =
        ((qRound2 q : ℕ) : ℚ) := by exact_mod_cast h
    have hp : (10 : ℚ) ^ (2 : ℕ) = 100 := by norm_num
    rw [hp]
    field_simp
    linarith
  by_cases hq : q < 0
  · have hsh : fmt2 q ++ rest = (if true then ['-'] else []) ++ natStr (qRound2 q / 100) ++
        ('.' :: ([digitChar (qRound2 q % 100 / 10), digitChar (qRound2 q % 100 % 10)] ++ rest)) := by
      simp [fmt2, hq]
    rw [hsh, atofQ_eval true _ _ rest hne hdig hdigF hrest, hfv0, hfold2]
    simp only [List.length_cons, List.length_nil, if_true]
    rw [hmant]
    simp [mRound2, hq]
    ring
  · have hsh : fmt2 q ++ rest = (if false then ['-'] else []) ++ natStr (qRound2 q / 100) ++
        ('.' :: ([digitChar (qRound2 q % 100 / 10), digitChar (qRound2 q % 100 % 10)] ++ rest)) := by
      simp [fmt2, hq]
    rw [hsh, atofQ_eval false _ _ rest hne hdig hdigF hrest, hfv0, hfold2]
    simp only [List.length_cons, List.length_nil, if_false]
    rw [hmant]
    simp [mRound2, hq]

theorem startsWithL_append (p r : List Char) : startsWithL p (p ++ r) = true := by
  induction p with
  | nil => rfl
  | cons c cs ih => simp [startsWithL, ih]

theorem idxOfSub_of_starts (pat s : List Char) (h : startsWithL pat s = true) :
    idxOfSub pat s = some 0 := by
  cases s with
  | nil =>
    cases pat with
    | nil => rfl
    | cons p ps => simp [startsWithL] at h
  | cons c cs => simp [idxOfSub, h]

/-- Searching for a pattern `a :: pt` past a block that never contains the
head character `a` just shifts the index by the block's length. -/
theorem idxOfSub_append_head_ne (a : Char) (pt v : List Char) :
    ∀ u, (∀ c ∈ u, c ≠ a) →
    idxOfSub (a :: pt) (u ++ v) = (idxOfSub (a :: pt) v).map (· + u.length) := by
  intro u
  induction u with
  | nil =>
    intro _
    simp only [List.nil_append, List.length_nil]
    cases idxOfSub (a :: pt) v <;> simp
  | cons c u' ih =>
    intro h
    have hca : c ≠ a := h c (List.mem_cons_self c u')
    have hac : (a == c) = false := beq_eq_false_iff_ne.mpr (Ne.symm hca)
    have hsw : startsWithL (a :: pt) (c :: (u' ++ v)) = false := by
      simp [startsWithL, hac]
    simp only [List.cons_append, idxOfSub, List.append_eq, hsw, Bool.false_eq_true, if_false]
    rw [ih (fun c' hc' => h c' (List.mem_cons_of_mem _ hc'))]
    cases idxOfSub (a :: pt) v <;> simp [List.length_cons] <;> omega

/-- `substring(|u|, |u| + |mid|)` of `u ++ mid ++ v` is `mid`. -/
theorem aSubstring_mid (u mid v : List Char) :
    aSubstring (u ++ (mid ++ v)) u.length (u.length + mid.length) = mid := by
  unfold aSubstring
  rw [min_eq_left (by omega), max_eq_right (by omega)]
  rw [show u ++ (mid ++ v) = (u ++ mid) ++ v from by simp]
  rw [List.take_left' (by simp), List.drop_left]

/-- `substring(|u|)` — to the end — of `u ++ v` is `v`. -/
theorem aSubstring_suffix (u v : List Char) :
    aSubstring (u ++ v) u.length (u ++ v).length = v := by
  unfold aSubstring
  rw [min_eq_left (by simp), max_eq_right (by simp), List.take_length, List.drop_left]

/-- Every character of a `%.2f` print is in `[0-9.-]`. -/
theorem fmt2_chars (q : ℚ) : ∀ c ∈ fmt2 q, isNumChar c = true := by
  intro c hc
  obtain ⟨-, hdig, -⟩ := natStr_spec (qRound2 q / 100)
  unfold fmt2 at hc
  rcases List.mem_append.mp hc with hc1 | hc2
  · rcases List.mem_append.mp hc1 with hs | hn
    · by_cases hq : q < 0
      · simp only [hq, if_true, List.mem_singleton] at hs
        rw [hs]
        decide
      · simp [hq] at hs
    · have hd := hdig c hn
      simp [isNumChar, hd]
  · simp only [List.mem_cons, List.not_mem_nil, or_false] at hc2
    rcases hc2 with hc2 | hc2 | hc2
    · rw [hc2]
      decide
    · rw [hc2]
      have hd := isDigitChar_digitChar _ (show qRound2 q % 100 / 10 < 10 by omega)
      simp [isNumChar, hd]
    · rw [hc2]
      have hd := isDigitChar_digitChar _ (show qRound2 q % 100 % 10 < 10 by omega)
      simp [isNumChar, hd]

theorem fmt2_ne_nil (q : ℚ) : fmt2 q ≠ [] := by
  unfold fmt2
  intro h
  rcases List.append_eq_nil.mp h with ⟨-, h2⟩
  exact absurd h2 (by simp)

/-- Stripping carriage returns does nothing to a formatted value plus a
CR-free tail. -/
theorem stripCR_fmt2 (q : ℚ) (t : List Char) (ht : ∀ c ∈ t, (c.toNat != 13) = true) :
    stripCR (fmt2 q ++ t) = fmt2 q ++ t := by
  unfold stripCR
  rw [List.filter_eq_self]
  intro c hc
  rcases List.mem_append.mp hc with hf | htl
  · exact (numChar_facts c (fmt2_chars q c hf)).1
  · exact ht c htl

/-- `parseFloat` on a formatted value plus a non-numeric tail is `atof`,
hence the two-decimal rounding. -/
theorem parseFloat_fmt2 (q : ℚ) (rest : List Char) (hrest : stopsNum rest) :
    parseFloat (fmt2 q ++ rest) = mRound2 q := by
  obtain ⟨c0, cs, hI⟩ : ∃ c0 cs, fmt2 q = c0 :: cs := by
    rcases h : fmt2 q with _ | ⟨x, xs⟩
    · exact absurd h (fmt2_ne_nil q)
    · exact ⟨x, xs, rfl⟩
  have hc0 : isNumChar c0 = true := fmt2_chars q c0 (by rw [hI]; exact List.mem_cons_self c0 cs)
  have hempty : (fmt2 q ++ rest).isEmpty = false := by
    rw [hI]
    simp
  have hany : (fmt2 q ++ rest).any isNumChar = true := by
    rw [hI]
    simp [hc0]
  unfold parseFloat
  rw [hempty, hany]
  simp only [Bool.false_eq_true, if_false, if_true]
  exact atofQ_fmt2 q rest hrest

/-- Label positions and extracted substrings of a well-formed frame
`T:<A>,H:<B>,P:<C>` whose field texts contain only `[0-9.-]` characters:
the labels sit at indices 0, `|A|+3`, `|A|+|B|+6`, and the three
`substring` calls of the decoder recover `A ++ ","`, `B ++ ","` and `C`. -/
theorem frame_decomp (A B C : List Char)
    (hA : ∀ c ∈ A, isNumChar c = true) (hB : ∀ c ∈ B, isNumChar c = true) :
    idxOfSub tLabel (mkFrame A B C) = some 0
    ∧ idxOfSub hLabel (mkFrame A B C) = some (A.length + 3)
    ∧ idxOfSub pLabel (mkFrame A B C) = some (A.length + B.length + 6)
    ∧ aSubstring (mkFrame A B C) 2 (A.length + 3) = A ++ [',']
    ∧ aSubstring (mkFrame A B C) (A.length + 3 + 2) (A.length + B.length + 6) = B ++ [',']
    ∧ aSubstring (mkFrame A B C) (A.length + B.length + 6 + 2) (mkFrame A B C).length = C := by
  have hfr : mkFrame A B C =
      'T' :: ':' :: (A ++ (',' :: ('H' :: ':' :: (B ++ (',' :: ('P' :: ':' :: C)))))) := by
    simp [mkFrame, tLabel, hLabel, pLabel]
  refine ⟨?_, ?_, ?_, ?_, ?_, ?_⟩
  · rw [hfr]
    exact idxOfSub_of_starts _ _ (by simp [tLabel, startsWithL])
  · have hsplit : mkFrame A B C =
        ('T' :: ':' :: (A ++ [','])) ++
          ('H' :: (':' :: (B ++ (',' :: ('P' :: ':' :: C))))) := by
      rw [hfr]
      simp
    rw [hsplit]
    have hnoH : ∀ c ∈ 'T' :: ':' :: (A ++ [',']), c ≠ 'H' := by
      intro ch hch
      rcases List.mem_cons.mp hch with rfl | hch
      · decide
      rcases List.mem_cons.mp hch with rfl | hch
      · decide
      rcases List.mem_append.mp hch with hA' | hch
      · exact (numChar_facts ch (hA ch hA')).2.1
      · rcases List.mem_singleton.mp hch with rfl
        decide
    have hH : hLabel = 'H' :: [':'] := rfl
    rw [hH, idxOfSub_append_head_ne 'H' [':'] _ _ hnoH]
    rw [idxOfSub_of_starts ('H' :: [':'])
      ('H' :: (':' :: (B ++ (',' :: ('P' :: ':' :: C))))) (by simp [startsWithL])]
    simp only [Option.map_some', Option.some.injEq, List.length_cons, List.length_append,
      List.length_singleton, List.length_nil]
    omega
  · have hsplit : mkFrame A B C =
        ('T' :: ':' :: (A ++ (',' :: ('H' :: ':' :: (B ++ [',']))))) ++
          ('P' :: (':' :: C)) := by
      rw [hfr]
      simp
    rw [hsplit]
    have hnoP : ∀ c ∈ 'T' :: ':' :: (A ++ (',' :: ('H' :: ':' :: (B ++ [','])))), c ≠ 'P' := by
      intro ch hch
      rcases List.mem_cons.mp hch with rfl | hch
      · decide
      rcases List.mem_cons.mp hch with rfl | hch
      · decide
      rcases List.mem_append.mp hch with hA' | hch
      · exact (numChar_facts ch (hA ch hA')).2.2
      rcases List.mem_cons.mp hch with rfl | hch
      · decide
      rcases List.mem_cons.mp hch with rfl | hch
      · decide
      rcases List.mem_cons.mp hch with rfl | hch
      · decide
      rcases List.mem_append.mp hch with hB' | hch
      · exact (numChar_facts ch (hB ch hB')).2.2
      · rcases List.mem_singleton.mp hch with rfl
        decide
    have hP : pLabel = 'P' :: [':'] := rfl
    rw [hP, idxOfSub_append_head_ne 'P' [':'] _ _ hnoP]
    rw [idxOfSub_of_starts ('P' :: [':']) ('P' :: (':' :: C)) (by simp [startsWithL])]
    simp only [Option.map_some', Option.some.injEq, List.length_cons, List.length_append,
      List.length_singleton, List.length_nil]
    omega
  · have hsplit : mkFrame A B C =
        (['T', ':'] : List Char) ++ ((A ++ [',']) ++
          ('H' :: ':' :: (B ++ (',' :: ('P' :: ':' :: C))))) := by
      rw [hfr]
      simp
    have e2 : A.length + 3 = (['T', ':'] : List Char).length + (A ++ [',']).length := by
      simp only [List.length_cons, List.length_append, List.length_singleton,
        List.length_nil] <;> omega
    rw [hsplit, e2, show (2 : Nat) = (['T', ':'] : List Char).length from rfl]
    exact aSubstring_mid _ _ _
  · have hsplit : mkFrame A B C =
        ('T' :: ':' :: (A ++ (',' :: ('H' :: [':'])))) ++ ((B ++ [',']) ++
          ('P' :: ':' :: C)) := by
      rw [hfr]
      simp
    have e1 : A.length + 3 + 2 = ('T' :: ':' :: (A ++ (',' :: ('H' :: [':'])))).length := by
      simp only [List.length_cons, List.length_append, List.length_singleton,
        List.length_nil] <;> omega
    have e2 : A.length + B.length + 6 =
        ('T' :: ':' :: (A ++ (',' :: ('H' :: [':'])))).length + (B ++ [',']).length := by
      simp only [List.length_cons, List.length_append, List.length_singleton,
        List.length_nil] <;> omega
    rw [hsplit, e1, e2]
    exact aSubstring_mid _ _ _
  · have hsplit : mkFrame A B C =
        ('T' :: ':' :: (A ++ (',' :: ('H' :: ':' :: (B ++ [',', 'P', ':']))))) ++ C := by
      rw [hfr]
      simp
    have e1 : A.length + B.length + 6 + 2 =
        ('T' :: ':' :: (A ++ (',' :: ('H' :: ':' :: (B ++ [',', 'P', ':']))))).length := by
      simp only [List.length_cons, List.length_append, List.length_singleton,
        List.length_nil] <;> omega
    rw [hsplit, e1]
    exact aSubstring_suffix _ _

/-- Decoding an encoder-shaped frame recovers the two-decimal rounding of
each field, in order T, H, P. -/
theorem parse_canonical (a b c : ℚ) :
    parseSensorData (formatSensorDataFull ⟨a, b, c⟩) =
      (decide (mRound2 a ≠ 9999 ∨ mRound2 b ≠ 9999 ∨ mRound2 c ≠ 9999),
        ⟨mRound2 a, mRound2 b, mRound2 c⟩) := by
  obtain ⟨h1, h2, h3, h4, h5, h6⟩ :=
    frame_decomp (fmt2 a) (fmt2 b) (fmt2 c) (fmt2_chars a) (fmt2_chars b)
  have hform : formatSensorDataFull ⟨a, b, c⟩ = mkFrame (fmt2 a) (fmt2 b) (fmt2 c) := rfl
  have hcomma : ∀ ch ∈ ([','] : List Char), (ch.toNat != 13) = true := by
    intro ch hch
    rcases List.mem_singleton.mp hch with rfl
    decide
  have hstopComma : stopsNum [','] := ⟨by decide, by decide, by decide, by decide⟩
  have htemp : parseFloat (stripCR (fmt2 a ++ [','])) = mRound2 a := by
    rw [stripCR_fmt2 a [','] hcomma]
    exact parseFloat_fmt2 a [','] hstopComma
  have hhum : parseFloat (stripCR (fmt2 b ++ [','])) = mRound2 b := by
    rw [stripCR_fmt2 b [','] hcomma]
    exact parseFloat_fmt2 b [','] hstopComma
  have hpres : parseFloat (stripCR (fmt2 c)) = mRound2 c := by
    rw [show fmt2 c = fmt2 c ++ [] from by simp]
    rw [stripCR_fmt2 c [] (by intro ch hch; exact absurd hch (List.not_mem_nil ch))]
    exact parseFloat_fmt2 c [] trivial
  rw [hform]
  simp only [parseSensorData, h1, h2, h3, Nat.zero_add, h4, h5, h6, htemp, hhum, hpres]

/-- Two-decimal rounding moves a value by at most 1/200. -/
theorem mRound2_tol (q : ℚ) : |mRound2 q - q| ≤ 1 / 200 := by
  unfold mRound2
  by_cases hq : q < 0
  · have habs := abs_sub_round (100 * -q)
    have hnn : (0 : ℤ) ≤ round (100 * -q) := by
      rw [round_eq]
      apply Int.floor_nonneg.mpr
      nlinarith
    have hcast : ((qRound2 q : ℕ) : ℚ) = ((round (100 * -q) : ℤ) : ℚ) := by
      unfold qRound2
      rw [abs_of_neg hq]
      exact_mod_cast congrArg (fun z : ℤ => (z : ℚ)) (Int.toNat_of_nonneg hnn)
    rw [hcast]
    rw [abs_le] at habs
    simp only [hq, if_true]
    rw [abs_le]
    constructor <;> linarith [habs.1, habs.2]
  · have hq2 : 0 ≤ q := not_lt.mp hq
    have habs := abs_sub_round (100 * q)
    have hnn : (0 : ℤ) ≤ round (100 * q) := by
      rw [round_eq]
      apply Int.floor_nonneg.mpr
      nlinarith
    have hcast : ((qRound2 q : ℕ) : ℚ) = ((round (100 * q) : ℤ) : ℚ) := by
      unfold qRound2
      rw [abs_of_nonneg hq2]
      exact_mod_cast congrArg (fun z : ℤ => (z : ℚ)) (Int.toNat_of_nonneg hnn)
    rw [hcast]
    rw [abs_le] at habs
    simp only [hq, if_false]
    rw [abs_le]
    constructor <;> linarith [habs.1, habs.2]

/-- The sentinel 9999.0 is a fixed point of two-decimal rounding. -/
theorem mRound2_sentinel : mRound2 9999 = 9999 := by
  have h1 : (100 : ℚ) * |(9999 : ℚ)| = ((999900 : ℤ) : ℚ) := by norm_num
  have h2 : ((999900 : ℤ).toNat : ℚ) = 999900 := by
    rw [show (999900 : ℤ).toNat = 999900 from rfl]
    norm_num
  unfold mRound2 qRound2
  rw [h1, round_intCast, h2]
  norm_num

/-- C7 counterexample: the decode is not order-tolerant in the extracted
values — the same three labelled fields in a different order succeed but
yield temperature 0.0 instead of 21.50, because the defensive substring
arithmetic swaps bounds and `toFloat` reads from the start of the slice. -/
theorem parse_order_changes_values :
    (parseSensorData ("T:21.50,H:55.30,P:1013.25".toList)).1 = true
    ∧ (parseSensorData ("H:55.30,P:1013.25,T:21.50".toList)).1 = true
    ∧ (parseSensorData ("T:21.50,H:55.30,P:1013.25".toList)).2.temperature = 43 / 2
    ∧ (parseSensorData ("H:55.30,P:1013.25,T:21.50".toList)).2.temperature = 0
    ∧ (43 : ℚ) / 2 ≠ 0 := by
  refine ⟨?_, ?_, ?_, ?_, ?_⟩ <;> with_unfolding_all decide

/-- C7 (amended): the three labels are located independently, and for every
frame in the encoder's canonical label order T,H,P the decode extracts the
three labelled values (their two-decimal roundings); for out-of-order frames
the label search still succeeds but the extracted values are not guaranteed
to coincide. -/
theorem parse_canonical_order_values (a b c : ℚ) :
    (parseSensorData (formatSensorDataFull ⟨a, b, c⟩)).2 =
      ⟨mRound2 a, mRound2 b, mRound2 c⟩ := by
  rw [parse_canonical]

set_option maxRecDepth 2000

/-- C2 counterexample: the 50-byte `snprintf` buffer truncates large
readings — with temperature and humidity 2^63 (an exactly representable
float) the frame is cut at 49 characters, the "P:" label is lost, decoding
fails to the all-sentinel reading, and the temperature is not reconstructed
within the two-decimal tolerance. -/
theorem roundtrip_buffer_overflow :
    (parseSensorData (formatSensorData
        ⟨9223372036854775808, 9223372036854775808, 0⟩)).2 = allSentinel
    ∧ ((9223372036854775808 : ℚ) ≠ 9999 ∨ (9223372036854775808 : ℚ) ≠ 9999 ∨ (0 : ℚ) ≠ 9999)
    ∧ ¬ (|(parseSensorData (formatSensorData
        ⟨9223372036854775808, 9223372036854775808, 0⟩)).2.temperature -
          (9223372036854775808 : ℚ)| ≤ 1 / 200) := by
  have hstr : formatSensorData ⟨9223372036854775808, 9223372036854775808, 0⟩ =
      "T:9223372036854775808.00,H:9223372036854775808.00".toList := by
    with_unfolding_all decide
  have hparse : parseSensorData
      ("T:9223372036854775808.00,H:9223372036854775808.00".toList) = (false, allSentinel) := by
    decide
  refine ⟨?_, ?_, ?_⟩
  · rw [hstr, hparse]
  · left
    with_unfolding_all decide
  · rw [hstr, hparse]
    show ¬ (|(9999 : ℚ) - 9223372036854775808| ≤ 1 / 200)
    with_unfolding_all decide

/-- C2 (amended): for every reading whose encoded frame fits the `snprintf`
buffer (at most 49 characters) and has at least one non-sentinel field,
decoding the encoded frame reconstructs each field within two-decimal
rounding tolerance, and sentinel fields stay sentinel. -/
theorem roundtrip_within_buffer (d : SensorData)
    (hfit : (formatSensorDataFull d).length ≤ 49)
    (hne : d.temperature ≠ 9999 ∨ d.humidity ≠ 9999 ∨ d.pressure ≠ 9999) :
    (|(parseSensorData (formatSensorData d)).2.temperature - d.temperature| ≤ 1 / 200
      ∧ |(parseSensorData (formatSensorData d)).2.humidity - d.humidity| ≤ 1 / 200
      ∧ |(parseSensorData (formatSensorData d)).2.pressure - d.pressure| ≤ 1 / 200)
    ∧ (d.temperature = 9999 → (parseSensorData (formatSensorData d)).2.temperature = 9999)
    ∧ (d.humidity = 9999 → (parseSensorData (formatSensorData d)).2.humidity = 9999)
    ∧ (d.pressure = 9999 → (parseSensorData (formatSensorData d)).2.pressure = 9999) := by
  obtain ⟨t, h, p⟩ := d
  have hform : formatSensorData ⟨t, h, p⟩ = formatSensorDataFull ⟨t, h, p⟩ := by
    unfold formatSensorData
    exact List.take_of_length_le hfit
  rw [hform, parse_canonical t h p]
  dsimp only
  refine ⟨⟨mRound2_tol t, mRound2_tol h, mRound2_tol p⟩, ?_, ?_, ?_⟩ <;>
    intro he <;> rw [he] <;> exact mRound2_sentinel

/-- C2 witness: the round trip at the in-range reading
(21.5, 55.3, 1013.25). -/
theorem roundtrip_within_buffer_witness :
    (|(parseSensorData (formatSensorData ⟨43/2, 553/10, 4053/4⟩)).2.temperature -
        (43/2 : ℚ)| ≤ 1 / 200)
    ∧ ((43/2 : ℚ) = 9999 →
        (parseSensorData (formatSensorData ⟨43/2, 553/10, 4053/4⟩)).2.temperature = 9999) :=
  ⟨((roundtrip_within_buffer ⟨43/2, 553/10, 4053/4⟩ (by with_unfolding_all decide)
      (Or.inl (by with_unfolding_all decide))).1).1,
    ((roundtrip_within_buffer ⟨43/2, 553/10, 4053/4⟩ (by with_unfolding_all decide)
      (Or.inl (by with_unfolding_all decide))).2).1⟩

end Irrigation
